import Mathlib

set_option maxRecDepth 8000

/-!
# Verification of the `gt_rtl_radio` FM tuner core (`src/gr_rtl_tuner.cpp`)

This file is a shallow embedding of the band-scan algorithm and the control
API of `gr_rtl_tuner.cpp`, together with proofs about it.

The C++ code computes with IEEE-754 `double` values.  Every finite double is
a rational number, so we model doubles as rationals together with an explicit
round-to-nearest-even operation `toDouble : ℚ → ℚ` that maps an exact
rational to the (rational value of the) nearest representable double with a
53-bit significand.  The arithmetic of the program is then embedded as
"compute exactly, then round" (`addD`, `mulD`, `divD`), which is exactly the
IEEE semantics of `+`, `*`, `/` on doubles in round-to-nearest-even mode in
the absence of overflow and underflow; all values manipulated by this program
are far inside the normal range, so the model is exact for it.

Because the `Rat` operations of the ambient library are `@[irreducible]`
(they do not evaluate inside `decide`), we first define kernel-evaluable
exact rational operations `qAdd`, `qSub`, `qMul`, `qDiv` via `mkRat` and
prove that each agrees with the corresponding standard operation on `ℚ`
(lemmas `qAdd_eq`, `qSub_eq`, `qMul_eq`, `qDiv_eq`).  These are *exact*
rational operations; rounding only ever happens through `toDouble`.
-/

/-! ## Kernel-evaluable exact rational arithmetic -/

/-- Build the rational `n / d` in a kernel-evaluable way. -/
def qOf (n : ℤ) (d : ℕ) : ℚ := mkRat n d

/-- Exact rational addition, kernel-evaluable. -/
def qAdd (a b : ℚ) : ℚ := mkRat (a.num * b.den + b.num * a.den) (a.den * b.den)

/-- Exact rational subtraction, kernel-evaluable. -/
def qSub (a b : ℚ) : ℚ := mkRat (a.num * b.den - b.num * a.den) (a.den * b.den)

/-- Exact rational multiplication, kernel-evaluable. -/
def qMul (a b : ℚ) : ℚ := mkRat (a.num * b.num) (a.den * b.den)

/-- Exact rational inverse, kernel-evaluable (`qInv 0 = 0`, the `Rat`
convention; never exercised by the model). -/
def qInv (b : ℚ) : ℚ :=
  match b.num with
  | Int.ofNat n => mkRat b.den n
  | Int.negSucc n => mkRat (-(b.den : ℤ)) (n + 1)

/-- Exact rational division, kernel-evaluable. -/
def qDiv (a b : ℚ) : ℚ := qMul a (qInv b)

theorem qAdd_eq (a b : ℚ) : qAdd a b = a + b := by
  rw [Rat.add_def', qAdd]

theorem qSub_eq (a b : ℚ) : qSub a b = a - b := by
  rw [Rat.sub_def', qSub]

theorem qMul_eq (a b : ℚ) : qMul a b = a * b := by
  rw [Rat.mul_def, Rat.normalize_eq_mkRat, qMul]

theorem qInv_eq (b : ℚ) : qInv b = b⁻¹ := by
  have hinv : b⁻¹ = Rat.divInt b.den b.num := Rat.inv_def b
  rw [hinv, qInv]
  cases hn : b.num with
  | ofNat n =>
      show mkRat (b.den : ℤ) n = Rat.divInt (b.den : ℤ) (Int.ofNat n)
      rw [show Int.ofNat n = ((n : ℕ) : ℤ) from rfl, Rat.divInt_ofNat]
  | negSucc n =>
      show mkRat (-(b.den : ℤ)) (n + 1) = Rat.divInt (b.den : ℤ) (Int.negSucc n)
      rw [show Int.negSucc n = -((n + 1 : ℕ) : ℤ) from rfl, Rat.divInt_neg',
        Rat.divInt_ofNat]

theorem qDiv_eq (a b : ℚ) : qDiv a b = a / b := by
  rw [qDiv, qMul_eq, qInv_eq, div_eq_mul_inv]

/-! ## A kernel-evaluable model of IEEE-754 binary64 rounding -/

/-- Fuelled binary logarithm on `ℕ` (structural recursion, so it evaluates
inside the kernel; `log2fuel n n` is `⌊log₂ n⌋` for `n ≥ 1`). -/
def log2fuel : ℕ → ℕ → ℕ
  | 0, _ => 0
  | fuel + 1, n => if 2 ≤ n then log2fuel fuel (n / 2) + 1 else 0

/-- `⌊log₂ n⌋` for `n ≥ 1` (and `0` for `n = 0`), kernel-evaluable. -/
def natLog2 (n : ℕ) : ℕ := log2fuel n n

/-- The rational `2 ^ e` for `e : ℤ`, kernel-evaluable. -/
def qPow2 (e : ℤ) : ℚ :=
  if 0 ≤ e then qOf (2 ^ e.toNat) 1 else qOf 1 (2 ^ (-e).toNat)

/-- `⌊log₂ q⌋` for a positive rational `q`: the unique `e` with
`2 ^ e ≤ q < 2 ^ (e + 1)`.  Kernel-evaluable. -/
def ratFloorLog2 (q : ℚ) : ℤ :=
  let e0 : ℤ := (natLog2 q.num.toNat : ℤ) - (natLog2 q.den : ℤ)
  if q < qPow2 e0 then e0 - 1 else e0

/-- Round a rational to the nearest integer, ties to even
(the IEEE-754 default rounding of a value halfway between two
representable numbers). -/
def rnEven (q : ℚ) : ℤ :=
  let f := ⌊q⌋
  let r := qSub q (qOf f 1)
  if r < qOf 1 2 then f
  else if qOf 1 2 < r then f + 1
  else if f % 2 = 0 then f else f + 1

/-- Round a positive rational to the nearest binary64 value
(round-to-nearest, ties-to-even, 53-bit significand): scale into
`[2^52, 2^53)`, round to an integer significand, scale back. -/
def toDoublePos (q : ℚ) : ℚ :=
  let e : ℤ := ratFloorLog2 q
  let m : ℤ := rnEven (qMul q (qPow2 (52 - e)))
  qMul (qOf m 1) (qPow2 (e - 52))

/-- Round an arbitrary rational to the nearest binary64 value.  The model
covers the normal finite range of binary64 (no overflow, underflow, NaN);
every value arising in `gr_rtl_tuner.cpp` is far inside that range. -/
def toDouble (q : ℚ) : ℚ :=
  if q = 0 then 0
  else if q < 0 then qSub 0 (toDoublePos (qSub 0 q))
  else toDoublePos q

/-- IEEE binary64 addition: exact sum, then round (correct rounding). -/
def addD (x y : ℚ) : ℚ := toDouble (qAdd x y)

/-- IEEE binary64 multiplication: exact product, then round. -/
def mulD (x y : ℚ) : ℚ := toDouble (qMul x y)

/-- IEEE binary64 division: exact quotient, then round. -/
def divD (x y : ℚ) : ℚ := toDouble (qDiv x y)

/-- `q` is (the value of) a representable double. -/
def isDouble (q : ℚ) : Prop := toDouble q = q

/-! ## Constants of `gr_rtl_tuner.cpp` -/

/-- `const unsigned int MAX_FM_STATIONS = 100` (line 35). -/
def MAX_FM_STATIONS : ℕ := 100

/-- `const unsigned int SWITCH_DELAY_MS = 1000` (line 70). -/
def SWITCH_DELAY_MS : ℕ := 1000

/-- `const unsigned int MEASURE_MS = 200` (line 71). -/
def MEASURE_MS : ℕ := 200

/-- `const double POWER_THRESHOLD = 0.0002` (line 72): the binary64 value of
the literal `0.0002`. -/
def POWER_THRESHOLD : ℚ := toDouble (qOf 2 10000)

/-- The binary64 value of the literal `87.9` (loop start, line 76). -/
def FM_BAND_LOW : ℚ := toDouble (qOf 879 10)

/-- The binary64 value of the literal `107.9` (loop bound, line 76). -/
def FM_BAND_HIGH : ℚ := toDouble (qOf 1079 10)

/-- The binary64 value of the literal `0.2` (loop step, line 76). -/
def FM_STEP : ℚ := toDouble (qOf 1 5)

/-- The binary64 value of the literal `1e6` (exactly representable). -/
def MHZ : ℚ := qOf 1000000 1

/-! ## The tuner context

`struct rtl_ctx` (lines 38-45) holds the pipeline handles, a fixed
`double station_list[MAX_FM_STATIONS]` array, its fill count
`station_list_len`, and the mutex `station_list_mtx`.  The pipeline
(`top_block`, `rtl_source`, `avg_magnitude`) is the external collaborator;
of its state we model the commanded center frequency, which
`set_center_freq` stores and `get_center_freq` reports back
(the collaborator contract of the spec, section 6).  The mutex appears in
the dedicated concurrency model further below. -/

structure rtl_ctx where
  /-- The center frequency in Hz last commanded to the `osmosdr` source. -/
  center_freq_hz : ℚ
  /-- The `double station_list[MAX_FM_STATIONS]` array (all 100 slots). -/
  station_list : List ℚ
  /-- `unsigned int station_list_len`. -/
  station_list_len : ℕ
deriving DecidableEq

/-- Structural well-formedness of a context: the array has its declared 100
slots and the fill count never exceeds the capacity.  `create_fm_device`
establishes it; every operation preserves it. -/
def rtl_ctx.WF (c : rtl_ctx) : Prop :=
  c.station_list.length = MAX_FM_STATIONS ∧ c.station_list_len ≤ MAX_FM_STATIONS

instance (c : rtl_ctx) : Decidable c.WF := by unfold rtl_ctx.WF; infer_instance

/-! ## The control API (lines 51-63) -/

/-- `rtl_set_fm` (lines 51-54):
`tuner->rtl_source->set_center_freq(freq * 1e6)` — the double product
`freq * 1e6` is commanded to the source. -/
def rtl_set_fm (tuner : rtl_ctx) (freq : ℚ) : rtl_ctx :=
  { tuner with center_freq_hz := mulD freq MHZ }

/-- `rtl_get_fm` (lines 60-63):
`return tuner->rtl_source->get_center_freq() / 1e6` — the reported Hz value
divided (in double arithmetic) by `1e6`. -/
def rtl_get_fm (tuner : rtl_ctx) : ℚ := divD tuner.center_freq_hz MHZ

/-! ## The band scanner (`scan_fm_stations`, lines 68-100)

The measurement window at each candidate frequency polls
`tuner->avg_magnitude->level()` against the wall clock for `MEASURE_MS`
milliseconds; how many readings it takes and what values they have is
determined by the environment (pipeline state and scheduling).  The sweep is
therefore parametrised by `env : ℕ → List ℚ`, where `env i` is the list of
successive `level()` readings (binary64 values) taken during the window at
the `i`-th candidate frequency. -/

/-- The loop `for (double freq = 87.9; freq <= 107.9; freq += 0.2)`
(line 76) in binary64 arithmetic, fuelled to make the recursion structural
(the fuel is irrelevant: the guard exits after 100 iterations, see
`freqSweep_fuel_irrelevant`). -/
def freqSweep : ℕ → ℚ → List ℚ
  | 0, _ => []
  | fuel + 1, f =>
    if f ≤ FM_BAND_HIGH then f :: freqSweep fuel (addD f FM_STEP) else []

/-- The candidate frequencies the sweep visits, in order of visit. -/
def candidates : List ℚ := freqSweep 256 FM_BAND_LOW

/-- `sample_sum`: starts at `0` and accumulates
`sample_sum += tuner->avg_magnitude->level()` (line 83) in binary64
arithmetic. -/
def windowSum (samples : List ℚ) : ℚ := samples.foldl addD 0

/-- `sample_avg = sample_sum / num_samples` (line 87): binary64 division;
the conversion of the `unsigned int` count to `double` is exact for any
count below `2^53`, hence for any count an `unsigned int` can hold. -/
def windowMean (samples : List ℚ) : ℚ := divD (windowSum samples) (qOf samples.length 1)

/-- Lines 86-91: a station is recorded iff the window produced at least one
sample and `sample_avg > POWER_THRESHOLD`. -/
def stationDetected (samples : List ℚ) : Bool :=
  if 0 < samples.length then decide (POWER_THRESHOLD < windowMean samples)
  else false

/-- The body of the sweep (lines 76-93), iterated over the remaining
candidate frequencies: each iteration commands the pipeline to the candidate
(`rtl_set_fm(tuner, freq)`, line 77), waits, measures, and records the
candidate if detected.  Returns the finally-commanded center frequency in Hz
and the recorded stations (`stations_out`), in order. -/
def scanSweep : List ℚ → (ℕ → List ℚ) → ℕ → ℚ → ℚ × List ℚ
  | [], _, _, fhz => (fhz, [])
  | f :: fs, env, i, _ =>
    let fhz := mulD f MHZ
    let rest := scanSweep fs env (i + 1) fhz
    if stationDetected (env i) then (rest.1, f :: rest.2) else (rest.1, rest.2)

/-- `scan_fm_stations` (lines 68-100): run the sweep, then, under
`station_list_mtx`, `memcpy` the `found_stations` recorded doubles into
`tuner->station_list` (leaving the remaining slots unchanged) and set
`tuner->station_list_len = found_stations`. -/
def scan_fm_stations (tuner : rtl_ctx) (env : ℕ → List ℚ) : rtl_ctx :=
  let r := scanSweep candidates env 0 tuner.center_freq_hz
  { center_freq_hz := r.1
    station_list := r.2 ++ tuner.station_list.drop r.2.length
    station_list_len := r.2.length }

/-- `rtl_get_fm_stations` (lines 105-115): run `scan_fm_stations`
synchronously, then, under the mutex, `memcpy` the first
`station_list_len` entries of `tuner->station_list` into the caller's
buffer and return that count.  Result: the updated context, the returned
count, and the entries copied into `stations_out`. -/
def rtl_get_fm_stations (tuner : rtl_ctx) (env : ℕ → List ℚ) :
    rtl_ctx × ℕ × List ℚ :=
  let t := scan_fm_stations tuner env
  (t, t.station_list_len, t.station_list.take t.station_list_len)

/-! ## The external C API under a null context pointer

Each `rtl_*` entry point receives `rtl_ctx_t* tuner`.  The model wraps the
context in `Option`: `none` is the null pointer.  Reading the source:

* `rtl_set_fm` (line 51), `rtl_get_fm` (line 60) and `rtl_get_fm_stations`
  (line 105, via `scan_fm_stations`, line 77) evaluate `tuner->...` with no
  null check: on a null pointer they dereference it (undefined behaviour,
  modelled as the distinguished outcome `nullDeref`);
* `rtl_destroy_tuner` (line 326), `rtl_start_fm` (line 342) and
  `rtl_stop_fm` (line 356) test `tuner == NULL` first, print an error
  message, and return without touching anything (outcome `reported`). -/

/-- Outcome of an external API call made with a possibly-null context. -/
inductive CallOutcome (α : Type) where
  /-- The call ran normally and produced `a`. -/
  | ok (a : α) : CallOutcome α
  /-- The null pointer was detected: an error is printed, nothing happens. -/
  | reported : CallOutcome α
  /-- The null pointer was dereferenced: undefined behaviour (crash). -/
  | nullDeref : CallOutcome α
deriving DecidableEq

/-- `rtl_set_fm` at the C boundary (lines 51-54): no null check. -/
def rtl_set_fm_c (tuner : Option rtl_ctx) (freq : ℚ) : CallOutcome rtl_ctx :=
  match tuner with
  | none => .nullDeref
  | some t => .ok (rtl_set_fm t freq)

/-- `rtl_get_fm` at the C boundary (lines 60-63): no null check. -/
def rtl_get_fm_c (tuner : Option rtl_ctx) : CallOutcome ℚ :=
  match tuner with
  | none => .nullDeref
  | some t => .ok (rtl_get_fm t)

/-- `rtl_get_fm_stations` at the C boundary (lines 105-115): no null check;
the very first scan step dereferences `tuner`. -/
def rtl_get_fm_stations_c (tuner : Option rtl_ctx) (env : ℕ → List ℚ) :
    CallOutcome (rtl_ctx × ℕ × List ℚ) :=
  match tuner with
  | none => .nullDeref
  | some t => .ok (rtl_get_fm_stations t env)

/-- `rtl_start_fm` (lines 340-349): null is checked and reported; otherwise
the flowgraph is started (a pipeline side effect outside the context
state). -/
def rtl_start_fm_c (tuner : Option rtl_ctx) : CallOutcome rtl_ctx :=
  match tuner with
  | none => .reported
  | some t => .ok t

/-- `rtl_stop_fm` (lines 354-363): null is checked and reported; otherwise
the flowgraph is stopped. -/
def rtl_stop_fm_c (tuner : Option rtl_ctx) : CallOutcome rtl_ctx :=
  match tuner with
  | none => .reported
  | some t => .ok t

/-- `rtl_destroy_tuner` (lines 324-334): null is checked and reported;
otherwise the flowgraph is stopped and the context freed (no context
survives). -/
def rtl_destroy_tuner_c (tuner : Option rtl_ctx) : CallOutcome Unit :=
  match tuner with
  | none => .reported
  | some _ => .ok ()

/-! ## The measurement window against the wall clock (lines 81-85)

```
start = now();
while (duration_cast<milliseconds>(now() - start).count() < MEASURE_MS) {
  sample_sum += tuner->avg_magnitude->level();
  ++num_samples;
}
```

The observable behaviour of this loop is fixed by the sequence of values the
clock delivers.  `start` is the reading taken before the loop and
`clock k` (in milliseconds, `clock` monotone, `start ≤ clock 0`) is the
reading taken by the `k`-th evaluation of the loop condition.  The loop body
runs once for every `k` whose condition check passed, so the number of
samples taken is the least `k` at which the window has elapsed. -/

/-- The condition of the `k`-th check: `(clock k - start) < MEASURE_MS`
(truncating `Nat` subtraction agrees with the C++ duration arithmetic
whenever `start ≤ clock k`, which monotonicity guarantees). -/
def windowOpen (start : ℕ) (clock : ℕ → ℕ) (k : ℕ) : Prop :=
  clock k - start < MEASURE_MS

instance (start : ℕ) (clock : ℕ → ℕ) (k : ℕ) :
    Decidable (windowOpen start clock k) := by unfold windowOpen; infer_instance

/-- The number of samples the measurement loop takes: the index of the first
condition check that fails.  `helapsed` guarantees the loop terminates (the
clock eventually advances past the window). -/
def numSamples (start : ℕ) (clock : ℕ → ℕ)
    (helapsed : ∃ k, ¬ windowOpen start clock k) : ℕ :=
  Nat.find helapsed

/-! ## The station-list mutex (lines 94-98 and 109-113)

The writer side (end of `scan_fm_stations`) runs, while holding
`station_list_mtx`,

```
memcpy(tuner->station_list, stations_out, sizeof(double) * found_stations);
tuner->station_list_len = found_stations;
```

and a concurrent reader (the locked block of another thread's
`rtl_get_fm_stations` call) runs, while holding the same mutex,

```
memcpy(stations_out, tuner->station_list, sizeof(double) * tuner->station_list_len);
stations_out_len = tuner->station_list_len;
```

We model the shared state as the array and its length, the writer's critical
section as one `memcpy` step per written element followed by the length
store, and the reader's copy as one step (what the reader would observe even
if its whole copy happened in a single instant: any torn observation by a
finer-grained reader is at least as stale).  A schedule is an arbitrary
interleaving of the two threads' event sequences; the mutex is modelled by a
lock-protocol automaton that every schedule must satisfy, exactly as
`std::lock_guard` enforces.  The theorem for claim C7 shows every
mutex-respecting interleaving gives the reader either the complete old list
or the complete new one. -/

/-- Events of the writer (publishing thread) and reader threads. -/
inductive Ev where
  /-- Writer acquires `station_list_mtx` (its `lock_guard` constructor). -/
  | wlock : Ev
  /-- Writer's `memcpy` stores element `i` of the new list. -/
  | wstore (i : ℕ) : Ev
  /-- Writer stores `station_list_len = found_stations`. -/
  | wsetlen : Ev
  /-- Writer releases the mutex (its `lock_guard` destructor). -/
  | wunlock : Ev
  /-- Reader acquires the mutex. -/
  | rlock : Ev
  /-- Reader copies the first `station_list_len` elements out. -/
  | rcopy : Ev
  /-- Reader releases the mutex. -/
  | runlock : Ev
deriving DecidableEq

/-- The writer's event sequence for publishing the `n`-element list. -/
def writerTrace (n : ℕ) : List Ev :=
  Ev.wlock :: ((List.range n).map Ev.wstore ++ [Ev.wsetlen, Ev.wunlock])

/-- The reader's event sequence. -/
def readerTrace : List Ev := [Ev.rlock, Ev.rcopy, Ev.runlock]

/-- Shared state: the station array, its recorded length, and the reader's
observation (`none` until the reader has copied). -/
structure Shared where
  arr : List ℚ
  len : ℕ
  obs : Option (List ℚ)
deriving DecidableEq

/-- Effect of one event on the shared state; `new` is the list the writer
publishes.  Lock and unlock events do not change the data. -/
def evStep (new : List ℚ) (s : Shared) : Ev → Shared
  | Ev.wstore i => { s with arr := s.arr.set i (new.getD i 0) }
  | Ev.wsetlen => { s with len := new.length }
  | Ev.rcopy => { s with obs := some (s.arr.take s.len) }
  | _ => s

/-- Run a schedule from a state. -/
def runSched (new : List ℚ) (s : Shared) (t : List Ev) : Shared :=
  t.foldl (evStep new) s

/-- Who may act: `none` = mutex free, `some true` = writer holds it,
`some false` = reader holds it.  `lockStep` is the protocol automaton:
`none` (the error state) means the schedule violated mutual exclusion or
touched the data without holding the mutex. -/
def lockStep : Option (Option Bool) → Ev → Option (Option Bool)
  | some none, Ev.wlock => some (some true)
  | some (some true), Ev.wstore _ => some (some true)
  | some (some true), Ev.wsetlen => some (some true)
  | some (some true), Ev.wunlock => some none
  | some none, Ev.rlock => some (some false)
  | some (some false), Ev.rcopy => some (some false)
  | some (some false), Ev.runlock => some none
  | _, _ => none

/-- A schedule respects the mutex if the protocol automaton accepts it from
the free state.  This is exactly what `std::mutex` guarantees: a thread's
events between its lock and unlock are never interleaved with the other
thread's, and every data access happens under the lock (true of the source:
both `memcpy`s and both length accesses sit inside `lock_guard` blocks). -/
def mutexOK (t : List Ev) : Prop :=
  t.foldl lockStep (some none) = some none

instance (t : List Ev) : Decidable (mutexOK t) := by
  unfold mutexOK; infer_instance

/-- `Interleave xs ys zs`: `zs` is an interleaving of `xs` and `ys`
(each kept in order).  The scheduler may produce any such `zs`. -/
inductive Interleave : List Ev → List Ev → List Ev → Prop where
  | nil : Interleave [] [] []
  | left {x xs ys zs} : Interleave xs ys zs → Interleave (x :: xs) ys (x :: zs)
  | right {y xs ys zs} : Interleave xs ys zs → Interleave xs (y :: ys) (y :: zs)

/-! ## Spec-side definitions (for refinement-style claims)

These definitions follow the words of the specification, to be compared
with the embedding of the code. -/

/-- Modelled from the spec (section 4.2, steps d-e): the window "produced"
samples and their mean power exceeds the threshold.  The mean here is the
mean the scanner computes (binary64). -/
def specDetected (samples : List ℚ) : Prop :=
  samples ≠ [] ∧ POWER_THRESHOLD < windowMean samples

instance (samples : List ℚ) : Decidable (specDetected samples) := by
  unfold specDetected; infer_instance

/-- Modelled from the spec: the scan result keeps exactly the candidate
frequencies whose window satisfies `specDetected`, in sweep order. -/
def specScanResult (env : ℕ → List ℚ) : List ℚ :=
  (candidates.enum.filter fun p => decide (specDetected (env p.1))).map Prod.snd

/-- The list of stations one full sweep records (`stations_out` at line 94),
as a function of the measurement environment alone. -/
def scannedStations (env : ℕ → List ℚ) : List ℚ :=
  (scanSweep candidates env 0 0).2

/-! # Theorems -/

/-! ## Sanity checks of the rounding model

Reference binary64 values computed independently with IEEE double
arithmetic: the nearest double to `87.9` is `3092706306608333 / 2^45`, the
nearest double to `0.2` is `3602879701896397 / 2^54`, the nearest double to
`0.0002` is `7378697629483821 / 2^65`, and `87.9 + 0.2` in double
arithmetic is `6199486362052199 / 2^46`. -/

example : FM_BAND_LOW = qOf 3092706306608333 35184372088832 := by decide
example : FM_STEP = qOf 3602879701896397 18014398509481984 := by decide
example : POWER_THRESHOLD = qOf 7378697629483821 36893488147419103232 := by decide
example : addD FM_BAND_LOW FM_STEP = qOf 6199486362052199 70368744177664 := by
  decide
example : toDouble MHZ = MHZ := by decide

/-! ## The candidate list -/

/-- The binary64 sweep visits exactly 100 candidate frequencies: the
accumulated rounding error makes the 101st value (`≈ 107.90000000000029`)
fail the `freq <= 107.9` guard.  (In exact real arithmetic the loop would
run 101 times — one more than `MAX_FM_STATIONS`.) -/
theorem candidates_length : candidates.length = 100 := by decide

/-- The sweep's fuel is irrelevant: the guard stops the loop. -/
theorem freqSweep_fuel_irrelevant :
    freqSweep 256 FM_BAND_LOW = freqSweep 120 FM_BAND_LOW := by decide

/-- The candidates are strictly increasing (the claimed "ascending
order"). -/
theorem candidates_sorted : List.Pairwise (· < ·) candidates := by decide

/-- The first candidate is the double nearest `87.9`. -/
theorem candidates_head : candidates.head? = some FM_BAND_LOW := by decide

/-- The last candidate is `7578713747934433 / 2^46 ≈ 107.70000000000029`:
the sweep stops one step short of `107.9`. -/
theorem candidates_getLast :
    candidates.getLast? = some (qOf 7578713747934433 70368744177664) := by decide

/-- Every candidate lies within the exact band range `[87.9, 107.9]`. -/
theorem candidates_in_band :
    ∀ f ∈ candidates, qOf 879 10 ≤ f ∧ f ≤ qOf 1079 10 := by decide

/-! ## Structure of the sweep -/

theorem interleave_nil_left {ys zs : List Ev} (h : Interleave [] ys zs) :
    zs = ys := by
  generalize hx : ([] : List Ev) = xs at h
  induction h with
  | nil => rfl
  | left _ _ => exact absurd hx.symm (by simp)
  | right h ih => simp_all

theorem interleave_nil_right {xs zs : List Ev} (h : Interleave xs [] zs) :
    zs = xs := by
  generalize hy : ([] : List Ev) = ys at h
  induction h with
  | nil => rfl
  | left h ih => simp_all
  | right _ _ => exact absurd hy.symm (by simp)

/-- The recorded stations are a sublist of the candidates visited. -/
theorem scanSweep_snd_sublist (l : List ℚ) (env : ℕ → List ℚ) :
    ∀ (i : ℕ) (f0 : ℚ), (scanSweep l env i f0).2.Sublist l := by
  induction l with
  | nil => intro i f0; simp [scanSweep]
  | cons f fs ih =>
      intro i f0
      simp only [scanSweep]
      by_cases h : stationDetected (env i) <;> simp only [h, if_true, if_false]
      · exact (ih (i + 1) (mulD f MHZ)).cons₂ f
      · exact (ih (i + 1) (mulD f MHZ)).cons f

/-- The recorded stations do not depend on the initial center frequency. -/
theorem scanSweep_snd_f0 (l : List ℚ) (env : ℕ → List ℚ) :
    ∀ (i : ℕ) (a b : ℚ), (scanSweep l env i a).2 = (scanSweep l env i b).2 := by
  induction l with
  | nil => intro i a b; rfl
  | cons f fs ih => intro i a b; simp only [scanSweep]

/-- After a nonempty sweep the commanded center frequency is the last
candidate times `1e6`, independently of the initial frequency. -/
theorem scanSweep_fst_last (l : List ℚ) (env : ℕ → List ℚ) :
    ∀ (i : ℕ) (f0 x : ℚ), l.getLast? = some x →
      (scanSweep l env i f0).1 = mulD x MHZ := by
  induction l with
  | nil => intro i f0 x h; simp at h
  | cons f fs ih =>
      intro i f0 x h
      cases fs with
      | nil =>
          simp only [List.getLast?_singleton, Option.some_inj] at h
          subst h
          simp only [scanSweep]
          by_cases hd : stationDetected (env i) <;> simp [hd]
      | cons g t =>
          rw [List.getLast?_cons_cons] at h
          have hrec := ih (i + 1) (mulD f MHZ) x h
          simp only [scanSweep] at hrec ⊢
          by_cases hd : stationDetected (env i) <;>
            simp only [hd, if_true, if_false] <;> exact hrec

/-- If every window detects, the sweep records every candidate. -/
theorem scanSweep_snd_all (l : List ℚ) (env : ℕ → List ℚ)
    (h : ∀ j, stationDetected (env j) = true) :
    ∀ (i : ℕ) (f0 : ℚ), (scanSweep l env i f0).2 = l := by
  induction l with
  | nil => intro i f0; rfl
  | cons f fs ih =>
      intro i f0
      simp only [scanSweep, h i, if_true]
      rw [ih (i + 1) (mulD f MHZ)]

/-- If no window detects, the sweep records nothing. -/
theorem scanSweep_snd_none (l : List ℚ) (env : ℕ → List ℚ)
    (h : ∀ j, stationDetected (env j) = false) :
    ∀ (i : ℕ) (f0 : ℚ), (scanSweep l env i f0).2 = [] := by
  induction l with
  | nil => intro i f0; rfl
  | cons f fs ih =>
      intro i f0
      simp only [scanSweep, h i, Bool.false_eq_true, if_false]
      rw [ih (i + 1) (mulD f MHZ)]

/-- The sweep records exactly the candidates whose window detects. -/
theorem scanSweep_snd_filter (l : List ℚ) (env : ℕ → List ℚ) :
    ∀ (i : ℕ) (f0 : ℚ),
      (scanSweep l env i f0).2 =
        ((l.enumFrom i).filter fun p => stationDetected (env p.1)).map
          Prod.snd := by
  induction l with
  | nil => intro i f0; rfl
  | cons f fs ih =>
      intro i f0
      simp only [scanSweep, List.enumFrom, List.filter]
      by_cases h : stationDetected (env i) <;>
        simp only [h, if_true, if_false, List.map, ih (i + 1) (mulD f MHZ)]
      all_goals rfl

/-! ## Detection agrees with the specification wording -/

/-- The code's detection decision (lines 86-91) coincides with the spec's
"window produced samples, and their mean power exceeds the threshold". -/
theorem stationDetected_eq (s : List ℚ) :
    stationDetected s = decide (specDetected s) := by
  cases s with
  | nil => decide
  | cons a t =>
      simp only [stationDetected]
      rw [if_pos (by simp)]
      rw [decide_eq_decide]
      unfold specDetected
      simp

/-- Claim C5 backbone: the recorded list is exactly the spec-side filter. -/
theorem scannedStations_eq_spec (env : ℕ → List ℚ) :
    scannedStations env = specScanResult env := by
  unfold scannedStations specScanResult
  rw [scanSweep_snd_filter]
  have hfun : (fun p : ℕ × ℚ => stationDetected (env p.1)) =
      (fun p : ℕ × ℚ => decide (specDetected (env p.1))) :=
    funext fun p => stationDetected_eq _
  rw [hfun]
  rfl

/-! ## Accessors of the scan results -/

theorem scan_fm_stations_len (t : rtl_ctx) (env : ℕ → List ℚ) :
    (scan_fm_stations t env).station_list_len = (scannedStations env).length := by
  show (scanSweep candidates env 0 t.center_freq_hz).2.length = _
  rw [scanSweep_snd_f0 candidates env 0 t.center_freq_hz 0]
  rfl

theorem scan_fm_stations_list (t : rtl_ctx) (env : ℕ → List ℚ) :
    (scan_fm_stations t env).station_list =
      scannedStations env ++
        t.station_list.drop (scannedStations env).length := by
  show (scanSweep candidates env 0 t.center_freq_hz).2 ++
      t.station_list.drop
        (scanSweep candidates env 0 t.center_freq_hz).2.length = _
  rw [scanSweep_snd_f0 candidates env 0 t.center_freq_hz 0]
  rfl

/-- What `rtl_get_fm_stations` copies out and what it returns: the copied
entries are exactly the stations the sweep recorded, and the returned count
is their number. -/
theorem rtl_get_fm_stations_out (t : rtl_ctx) (env : ℕ → List ℚ) :
    (rtl_get_fm_stations t env).2.2 = scannedStations env ∧
    (rtl_get_fm_stations t env).2.1 = (scannedStations env).length := by
  refine ⟨?_, scan_fm_stations_len t env⟩
  show (scan_fm_stations t env).station_list.take
      (scan_fm_stations t env).station_list_len = _
  rw [scan_fm_stations_list, scan_fm_stations_len, List.take_left]

/-- The candidate list is nonempty (it has 100 entries). -/
theorem candidates_ne_nil : candidates ≠ [] := by
  intro h
  have := candidates_length
  rw [h] at this
  exact absurd this (by decide)

/-! ## Claim theorems -/

/-- C1: for every execution of a full band scan, the number of stations
recorded never exceeds `MAX_FM_STATIONS`, and the count returned to the
caller equals the number of frequency entries copied into the caller's
output buffer.  (The bound holds because the binary64 sweep visits exactly
100 candidates, `candidates_length`, and the recorded stations are a
sublist of them.) -/
theorem scan_count_bounded_matches_output (t : rtl_ctx) (env : ℕ → List ℚ) :
    (rtl_get_fm_stations t env).2.1 ≤ MAX_FM_STATIONS ∧
    (rtl_get_fm_stations t env).2.1 = (rtl_get_fm_stations t env).2.2.length := by
  obtain ⟨hout, hcnt⟩ := rtl_get_fm_stations_out t env
  constructor
  · rw [hcnt]
    have hle : (scannedStations env).length ≤ candidates.length :=
      List.Sublist.length_le (scanSweep_snd_sublist candidates env 0 0)
    rw [candidates_length] at hle
    exact hle
  · rw [hout, hcnt]

/-- C5: a candidate frequency is recorded as a discovered station if and
only if the window produced at least one sample and the (binary64) mean of
the accumulated power samples strictly exceeds `POWER_THRESHOLD`; a window
with zero samples is skipped with no detection. -/
theorem scan_records_iff_spec_mean (env : ℕ → List ℚ) :
    scannedStations env = specScanResult env ∧ ¬ specDetected [] :=
  ⟨scannedStations_eq_spec env, by decide⟩

/-- C3 counterexample: the constant reading
`cUp = 3689348814741911 / 2^64` (the binary64 successor of the threshold
`0.0002`) is strictly above `POWER_THRESHOLD` at every candidate frequency,
yet with 3 samples per window the computed binary64 mean rounds to exactly
the threshold, the strict comparison fails, and the scan records *nothing*
instead of the full candidate list. -/
theorem scan_misses_constant_just_above_threshold :
    POWER_THRESHOLD < qOf 3689348814741911 18446744073709551616 ∧
    scannedStations
      (fun _ => List.replicate 3 (qOf 3689348814741911 18446744073709551616)) =
      [] ∧
    candidates ≠ [] := by
  refine ⟨by decide, ?_, candidates_ne_nil⟩
  exact scanSweep_snd_none candidates _ (fun j => by decide) 0 0

/-- C3 amended: if at every candidate frequency the measurement window
produces at least one sample and a computed mean strictly above the
threshold, the scan result equals the full candidate frequency list, in
ascending order. -/
theorem scan_full_when_window_means_above (env : ℕ → List ℚ)
    (h : ∀ i, env i ≠ [] ∧ POWER_THRESHOLD < windowMean (env i)) :
    scannedStations env = candidates ∧ List.Pairwise (· < ·) candidates := by
  refine ⟨?_, candidates_sorted⟩
  exact scanSweep_snd_all candidates env
    (fun j => by rw [stationDetected_eq]; exact decide_eq_true ⟨(h j).1, (h j).2⟩)
    0 0

/-- Witness for `scan_full_when_window_means_above`: a window of one sample
of power `1` at every candidate. -/
theorem scan_full_when_window_means_above_witness :
    scannedStations (fun _ => [qOf 1 1]) = candidates ∧
    List.Pairwise (· < ·) candidates :=
  scan_full_when_window_means_above (fun _ => [qOf 1 1])
    (fun _ => ⟨show [qOf 1 1] ≠ [] by decide,
      show POWER_THRESHOLD < windowMean [qOf 1 1] by decide⟩)

/-- C6 counterexample: the constant reading
`cDn = 1844674407370955 / 2^63` (the binary64 predecessor of the threshold
`0.0002`) is strictly below `POWER_THRESHOLD`, yet with 7 samples per
window the accumulated binary64 mean rounds to just *above* the threshold:
every candidate is recorded, the result is the full 100-entry candidate
list, and the reported count is 100, not 0. -/
theorem scan_nonempty_for_constant_just_below_threshold :
    qOf 1844674407370955 9223372036854775808 < POWER_THRESHOLD ∧
    scannedStations
      (fun _ => List.replicate 7 (qOf 1844674407370955 9223372036854775808)) =
      candidates ∧
    (rtl_get_fm_stations ⟨0, List.replicate 100 0, 0⟩
      (fun _ => List.replicate 7 (qOf 1844674407370955 9223372036854775808))).2.1 =
      100 := by
  have hall : scannedStations
      (fun _ => List.replicate 7 (qOf 1844674407370955 9223372036854775808)) =
      candidates :=
    scanSweep_snd_all candidates _ (fun j => by decide) 0 0
  refine ⟨by decide, hall, ?_⟩
  rw [(rtl_get_fm_stations_out _ _).2, hall, candidates_length]

/-- C6 amended: if every measurement window is empty or its computed mean
does not exceed the threshold, the scan result is empty and the count
reported by `rtl_get_fm_stations` is zero. -/
theorem scan_empty_when_window_means_not_above (env : ℕ → List ℚ)
    (h : ∀ i, env i = [] ∨ windowMean (env i) ≤ POWER_THRESHOLD) :
    scannedStations env = [] ∧
    ∀ t : rtl_ctx, (rtl_get_fm_stations t env).2.1 = 0 := by
  have hdet : ∀ j, stationDetected (env j) = false := by
    intro j
    rw [stationDetected_eq]
    apply decide_eq_false
    rintro ⟨hne, hlt⟩
    rcases h j with he | hle
    · exact hne he
    · exact absurd hlt (not_lt.mpr hle)
  have hempty : scannedStations env = [] :=
    scanSweep_snd_none candidates env hdet 0 0
  refine ⟨hempty, fun t => ?_⟩
  rw [(rtl_get_fm_stations_out t env).2, hempty]
  rfl

/-- Witness for `scan_empty_when_window_means_not_above`: a window of one
sample of power `0` at every candidate. -/
theorem scan_empty_when_window_means_not_above_witness :
    scannedStations (fun _ => [qOf 0 1]) = [] ∧
    ∀ t : rtl_ctx,
      (rtl_get_fm_stations t (fun _ => [qOf 0 1])).2.1 = 0 :=
  scan_empty_when_window_means_not_above (fun _ => [qOf 0 1])
    (fun _ => Or.inr (show windowMean [qOf 0 1] ≤ POWER_THRESHOLD by decide))

/-- Every candidate's deviation from the ideal grid `87.9 + k * 0.2` is at
most `2^-41` MHz (about `4.5e-13`; the worst accumulated rounding error of
the sweep).  `qSub`, `qAdd`, `qOf` are the exact rational operations. -/
theorem candidates_near_grid :
    ∀ p ∈ candidates.enum,
      qSub p.2 (qAdd (qOf 879 10) (qOf p.1 5)) ≤ qOf 1 2199023255552 ∧
      qOf (-1) 2199023255552 ≤ qSub p.2 (qAdd (qOf 879 10) (qOf p.1 5)) := by
  decide

/-- C4 counterexample: with every window detecting, the last recorded
station is `7578713747934433 / 2^46 ≈ 107.70000000000029`, which is *not*
`87.9` plus an integer multiple of `0.2` (the sweep accumulates `+= 0.2`
in binary64, drifting off the exact grid), and the upper bound `107.9`
(as a double, `FM_BAND_HIGH`) is never visited, so the sweep does not
cover the range inclusively at both ends. -/
theorem recorded_station_off_grid :
    qOf 7578713747934433 70368744177664 ∈ scannedStations (fun _ => [qOf 1 1]) ∧
    (∀ k : ℤ, (879 : ℚ) / 10 + (k : ℚ) * (2 / 10) ≠
      qOf 7578713747934433 70368744177664) ∧
    FM_BAND_HIGH ∉ candidates := by
  refine ⟨?_, ?_, by decide⟩
  · have hall : scannedStations (fun _ => [qOf 1 1]) = candidates :=
      scanSweep_snd_all candidates _
        (fun j => show stationDetected [qOf 1 1] = true by decide) 0 0
    rw [hall]
    decide
  · intro k hk
    unfold qOf at hk
    rw [Rat.mkRat_eq_div] at hk
    have h2 : (k : ℚ) * 70368744177664 = 6966505673588837 := by
      push_cast at hk ⊢
      linear_combination 351843720888320 * hk
    have h3 : k * 70368744177664 = 6966505673588837 := by exact_mod_cast h2
    omega

/-- C4 amended: every recorded station is one of the visited candidates and
lies within the exact band range `[87.9, 107.9]`; the sweep visits exactly
100 candidates, each within `2^-41` MHz of `87.9 + k * 0.2`, but the last
candidate is `≈ 107.7`: the upper bound `107.9` is not visited. -/
theorem stations_within_band_near_grid (env : ℕ → List ℚ) (f : ℚ)
    (h : f ∈ scannedStations env) :
    (f ∈ candidates ∧ qOf 879 10 ≤ f ∧ f ≤ qOf 1079 10) ∧
    candidates.length = 100 ∧
    candidates.getLast? = some (qOf 7578713747934433 70368744177664) ∧
    ∀ p ∈ candidates.enum,
      qSub p.2 (qAdd (qOf 879 10) (qOf p.1 5)) ≤ qOf 1 2199023255552 ∧
      qOf (-1) 2199023255552 ≤ qSub p.2 (qAdd (qOf 879 10) (qOf p.1 5)) := by
  have hmem : f ∈ candidates :=
    (scanSweep_snd_sublist candidates env 0 0).subset h
  exact ⟨⟨hmem, candidates_in_band f hmem⟩, candidates_length,
    candidates_getLast, candidates_near_grid⟩

/-- Witness for `stations_within_band_near_grid`: the first candidate is
recorded when every window reads power `1`. -/
theorem stations_within_band_near_grid_witness :
    (FM_BAND_LOW ∈ candidates ∧
      qOf 879 10 ≤ FM_BAND_LOW ∧ FM_BAND_LOW ≤ qOf 1079 10) ∧
    candidates.length = 100 ∧
    candidates.getLast? = some (qOf 7578713747934433 70368744177664) ∧
    ∀ p ∈ candidates.enum,
      qSub p.2 (qAdd (qOf 879 10) (qOf p.1 5)) ≤ qOf 1 2199023255552 ∧
      qOf (-1) 2199023255552 ≤ qSub p.2 (qAdd (qOf 879 10) (qOf p.1 5)) :=
  stations_within_band_near_grid (fun _ => [qOf 1 1]) FM_BAND_LOW (by decide)

/-- C8 counterexample: the double `f = 3061269070146969 / 2^45`
(`≈ 87.00650000000022` MHz, inside the FM band) does not survive
`setFrequency`/`getFrequency`: `(f * 1e6) / 1e6` in binary64 lands one ulp
below `f`.  The conversion pair is not the identity. -/
theorem set_get_roundtrip_fails :
    isDouble (qOf 3061269070146969 35184372088832) ∧
    rtl_get_fm (rtl_set_fm ⟨qOf 0 1, List.replicate 100 (qOf 0 1), 0⟩
        (qOf 3061269070146969 35184372088832)) ≠
      qOf 3061269070146969 35184372088832 := by
  constructor
  · show toDouble _ = _
    decide
  · decide

/-- All 201 channel-grid frequencies `87.9, 88.0, …, 107.9` survive the
`* 1e6` / `/ 1e6` conversion round trip exactly. -/
theorem grid_roundtrip_all :
    (List.range 201).all (fun k =>
      decide (divD (mulD (toDouble (qOf (879 + k) 10)) MHZ) MHZ =
        toDouble (qOf (879 + k) 10))) = true := by
  decide

/-- C8 amended: `setFrequency(f)` followed by `getFrequency()` returns `f`
exactly for every frequency on the 0.1 MHz channel grid within the band
(87.9 to 107.9); for arbitrary doubles the round trip may differ from `f`
by one ulp (see `set_get_roundtrip_fails`). -/
theorem set_get_roundtrip_on_grid (t : rtl_ctx) (k : ℕ) (hk : k < 201) :
    rtl_get_fm (rtl_set_fm t (toDouble (qOf (879 + k) 10))) =
      toDouble (qOf (879 + k) 10) := by
  have hmem : k ∈ List.range 201 := List.mem_range.mpr hk
  exact of_decide_eq_true (List.all_eq_true.mp grid_roundtrip_all _ hmem)

/-- Witness for `set_get_roundtrip_on_grid`: the channel `101.9` MHz
(`k = 140`). -/
theorem set_get_roundtrip_on_grid_witness :
    rtl_get_fm (rtl_set_fm ⟨qOf 0 1, List.replicate 100 (qOf 0 1), 0⟩
        (toDouble (qOf (879 + 140) 10))) =
      toDouble (qOf (879 + 140) 10) :=
  set_get_roundtrip_on_grid ⟨qOf 0 1, List.replicate 100 (qOf 0 1), 0⟩ 140
    (by decide)

/-- C9: `rtl_get_fm_stations` changes the tuned center frequency as a side
effect: afterwards the commanded frequency is the last candidate of the
sweep (`≈ 107.7` MHz, times `1e6`), for *every* starting frequency — the
scan does not restore the pre-scan frequency, so whenever the pre-scan
frequency differs from the last candidate's, the tuned frequency has
changed. -/
theorem scan_leaves_frequency_at_last_candidate (t : rtl_ctx)
    (env : ℕ → List ℚ) :
    (rtl_get_fm_stations t env).1.center_freq_hz =
      mulD (qOf 7578713747934433 70368744177664) MHZ ∧
    (t.center_freq_hz ≠ mulD (qOf 7578713747934433 70368744177664) MHZ →
      (rtl_get_fm_stations t env).1.center_freq_hz ≠ t.center_freq_hz) := by
  have h1 : (rtl_get_fm_stations t env).1.center_freq_hz =
      mulD (qOf 7578713747934433 70368744177664) MHZ := by
    show (scanSweep candidates env 0 t.center_freq_hz).1 = _
    exact scanSweep_fst_last candidates env 0 t.center_freq_hz _
      candidates_getLast
  refine ⟨h1, fun hne => ?_⟩
  rw [h1]
  exact fun hcontra => hne hcontra.symm

/-- Witness for `scan_leaves_frequency_at_last_candidate`: starting from a
context tuned to `0` Hz, the scan leaves the frequency somewhere else. -/
theorem scan_leaves_frequency_at_last_candidate_witness :
    (rtl_get_fm_stations ⟨qOf 0 1, List.replicate 100 (qOf 0 1), 0⟩
        (fun _ => [])).1.center_freq_hz ≠
      (⟨qOf 0 1, List.replicate 100 (qOf 0 1), 0⟩ : rtl_ctx).center_freq_hz :=
  (scan_leaves_frequency_at_last_candidate
      ⟨qOf 0 1, List.replicate 100 (qOf 0 1), 0⟩ (fun _ => [])).2 (by decide)

/-- C2 counterexample: `rtl_set_fm` performs no null check — called with a
null context it dereferences the null pointer instead of reporting and
no-opping. -/
theorem null_set_fm_dereferences :
    rtl_set_fm_c none (qOf 1019 10) = CallOutcome.nullDeref ∧
    (CallOutcome.nullDeref : CallOutcome rtl_ctx) ≠ CallOutcome.reported :=
  ⟨rfl, by decide⟩

/-- C2 amended: only `rtl_start_fm`, `rtl_stop_fm` and `rtl_destroy_tuner`
check for a null context and report it as a no-op; `rtl_set_fm`,
`rtl_get_fm` and `rtl_get_fm_stations` dereference the null pointer
(undefined behaviour). -/
theorem null_context_guarded_only_in_start_stop_destroy :
    (∀ f : ℚ, rtl_set_fm_c none f = CallOutcome.nullDeref) ∧
    rtl_get_fm_c none = CallOutcome.nullDeref ∧
    (∀ env : ℕ → List ℚ, rtl_get_fm_stations_c none env = CallOutcome.nullDeref) ∧
    rtl_start_fm_c none = CallOutcome.reported ∧
    rtl_stop_fm_c none = CallOutcome.reported ∧
    rtl_destroy_tuner_c none = CallOutcome.reported :=
  ⟨fun _ => rfl, rfl, fun _ => rfl, rfl, rfl, rfl⟩

/-! ## Mutual exclusion serializes the two critical sections (claim C7) -/

/-- The protocol error state is absorbing. -/
theorem foldl_lockStep_none (t : List Ev) : t.foldl lockStep none = none := by
  induction t with
  | nil => rfl
  | cons e t ih =>
      rw [List.foldl_cons, show lockStep none e = none from by cases e <;> rfl]
      exact ih

/-- While the writer holds the mutex (having `k` data events and its unlock
still to run), a mutex-respecting schedule must run all of them before any
reader event. -/
theorem writer_locked_serial :
    ∀ (k t : List Ev),
      Interleave (k ++ [Ev.wunlock]) readerTrace t →
      (∀ e ∈ k, lockStep (some (some true)) e = some (some true)) →
      List.foldl lockStep (some (some true)) t = some none →
      t = (k ++ [Ev.wunlock]) ++ readerTrace := by
  intro k
  induction k with
  | nil =>
      intro t hint hk hfold
      cases hint with
      | left h' =>
          rw [interleave_nil_left h']
          rfl
      | right h' =>
          rw [List.foldl_cons,
            show lockStep (some (some true)) Ev.rlock = none from rfl,
            foldl_lockStep_none] at hfold
          simp at hfold
  | cons e k ih =>
      intro t hint hk hfold
      cases hint with
      | left h' =>
          rw [List.foldl_cons, hk e (List.mem_cons_self e k)] at hfold
          rw [ih _ h' (fun x hx => hk x (List.mem_cons_of_mem e hx)) hfold]
          simp
      | right h' =>
          rw [List.foldl_cons,
            show lockStep (some (some true)) Ev.rlock = none from rfl,
            foldl_lockStep_none] at hfold
          simp at hfold

/-- While the reader holds the mutex, a mutex-respecting schedule runs its
copy and unlock before any writer event. -/
theorem reader_locked_serial :
    ∀ (ws t : List Ev),
      Interleave ws [Ev.rcopy, Ev.runlock] t →
      (∀ e ∈ ws, lockStep (some (some false)) e = none) →
      List.foldl lockStep (some (some false)) t = some none →
      t = Ev.rcopy :: Ev.runlock :: ws := by
  intro ws t hint hw hfold
  cases hint with
  | left h' =>
      exfalso
      rename_i x xs zs
      rw [List.foldl_cons, hw x (List.mem_cons_self x xs),
        foldl_lockStep_none] at hfold
      simp at hfold
  | right h' =>
      rw [List.foldl_cons,
        show lockStep (some (some false)) Ev.rcopy = some (some false) from
          rfl] at hfold
      cases h' with
      | left h'' =>
          exfalso
          rename_i x xs zs
          rw [List.foldl_cons, hw x (List.mem_cons_self x xs),
            foldl_lockStep_none] at hfold
          simp at hfold
      | right h'' =>
          rw [interleave_nil_right h'']

/-- Serialization: under the mutex any interleaving of the writer's and the
reader's critical sections is one of the two sequential orders. -/
theorem mutex_serializes (n : ℕ) (t : List Ev)
    (hint : Interleave (writerTrace n) readerTrace t) (hm : mutexOK t) :
    t = writerTrace n ++ readerTrace ∨ t = readerTrace ++ writerTrace n := by
  unfold mutexOK at hm
  unfold writerTrace at hint
  cases hint with
  | left h' =>
      left
      rename_i zs
      have h2 : Interleave
          (((List.range n).map Ev.wstore ++ [Ev.wsetlen]) ++ [Ev.wunlock])
          readerTrace zs := by
        rw [List.append_assoc]
        exact h'
      rw [List.foldl_cons,
        show lockStep (some none) Ev.wlock = some (some true) from rfl] at hm
      have hk : ∀ e ∈ (List.range n).map Ev.wstore ++ [Ev.wsetlen],
          lockStep (some (some true)) e = some (some true) := by
        intro e he
        rcases List.mem_append.mp he with hmap | hone
        · rcases List.mem_map.mp hmap with ⟨i, _, rfl⟩; rfl
        · rw [List.mem_singleton.mp hone]; rfl
      rw [writer_locked_serial _ _ h2 hk hm]
      simp [writerTrace]
  | right h' =>
      right
      rw [List.foldl_cons,
        show lockStep (some none) Ev.rlock = some (some false) from rfl] at hm
      have hw : ∀ e ∈ writerTrace n, lockStep (some (some false)) e = none := by
        intro e he
        unfold writerTrace at he
        rcases List.mem_cons.mp he with rfl | he'
        · rfl
        · rcases List.mem_append.mp he' with hmap | htwo
          · rcases List.mem_map.mp hmap with ⟨i, _, rfl⟩; rfl
          · simp only [List.mem_cons, List.mem_singleton] at htwo
            rcases htwo with rfl | rfl | h0
            · rfl
            · rfl
            · simp at h0
      rw [reader_locked_serial _ _ h' hw hm]
      rfl

/-- Setting the element just past a prefix. -/
theorem set_at_boundary (l₁ l₂ : List ℚ) (v : ℚ) (h : l₂ ≠ []) :
    (l₁ ++ l₂).set l₁.length v = l₁ ++ (v :: l₂.tail) := by
  induction l₁ with
  | nil =>
      cases l₂ with
      | nil => exact absurd rfl h
      | cons b t => rfl
  | cons a t ih =>
      show a :: ((t ++ l₂).set t.length v) = a :: (t ++ (v :: l₂.tail))
      rw [ih]

/-- `set_at_boundary`, phrased on an arbitrary index equal to the prefix
length (so it can be used by `rw` without rewriting other occurrences). -/
theorem set_at_boundary' (l₁ l₂ : List ℚ) (v : ℚ) (m : ℕ)
    (hm : l₁.length = m) (h : l₂ ≠ []) :
    (l₁ ++ l₂).set m v = l₁ ++ (v :: l₂.tail) := by
  subst hm
  exact set_at_boundary l₁ l₂ v h

/-- The writer's element-by-element `memcpy` overwrites exactly the prefix. -/
theorem foldl_wstore (new arr0 : List ℚ) (hlen : new.length ≤ arr0.length) :
    ∀ n, n ≤ new.length →
      (List.range n).foldl (fun a i => a.set i (new.getD i 0)) arr0 =
        new.take n ++ arr0.drop n := by
  intro n
  induction n with
  | zero => intro _; simp
  | succ m ih =>
      intro hm
      have hmlt : m < new.length := hm
      have hmarr : m < arr0.length := lt_of_lt_of_le hmlt hlen
      rw [List.range_succ, List.foldl_append, ih (Nat.le_of_succ_le hm)]
      show (new.take m ++ arr0.drop m).set m (new.getD m 0) = _
      have htm : (new.take m).length = m := by
        rw [List.length_take]
        exact min_eq_left (le_of_lt hmlt)
      have hdrop : arr0.drop m ≠ [] := by
        intro hd
        have := List.drop_eq_nil_iff.mp hd
        omega
      rw [set_at_boundary' _ _ _ _ htm hdrop, List.tail_drop]
      rw [List.getD_eq_getElem?_getD, List.getElem?_eq_getElem hmlt]
      rw [List.take_succ, List.getElem?_eq_getElem hmlt, List.append_assoc]
      rfl

/-- Folding the writer's store events only rewrites the array. -/
theorem foldl_wstore_shared (new : List ℚ) :
    ∀ (n : ℕ) (s : Shared),
      (List.range n).foldl (fun st i => evStep new st (Ev.wstore i)) s =
        { s with
          arr := (List.range n).foldl (fun a i => a.set i (new.getD i 0)) s.arr } := by
  intro n
  induction n with
  | zero => intro s; rfl
  | succ m ih =>
      intro s
      rw [List.range_succ, List.foldl_append, List.foldl_append, ih]
      rfl

/-- Running the writer's whole critical section replaces the first
`new.length` array entries and stores the new length. -/
theorem runSched_writer (new : List ℚ) (s : Shared)
    (h : new.length ≤ s.arr.length) :
    runSched new s (writerTrace new.length) =
      ⟨new ++ s.arr.drop new.length, new.length, s.obs⟩ := by
  unfold runSched writerTrace
  rw [List.foldl_cons, show evStep new s Ev.wlock = s from rfl,
    List.foldl_append, List.foldl_map, foldl_wstore_shared,
    foldl_wstore new s.arr h new.length (le_refl _)]
  rw [List.take_length]
  rfl

/-- Running the reader's critical section records one observation. -/
theorem runSched_reader (new : List ℚ) (s : Shared) :
    runSched new s readerTrace = { s with obs := some (s.arr.take s.len) } :=
  rfl

/-- An interleaving always exists: run one thread then the other. -/
theorem interleave_append (xs ys : List Ev) : Interleave xs ys (xs ++ ys) := by
  induction xs with
  | nil =>
      show Interleave [] ys ys
      induction ys with
      | nil => exact .nil
      | cons y t ih => exact .right ih
  | cons x t ih => exact .left ih

/-- C7: while `scan_fm_stations` publishes the new station list under
`station_list_mtx` and a concurrent reader copies the list under the same
mutex, every mutex-respecting interleaving of the two critical sections
lets the reader observe either the previous list in full
(`arr0.take len0`) or the new list in full (`new`) — never a partial
interleaving of the two. -/
theorem reader_sees_full_old_or_full_new (new arr0 : List ℚ) (len0 : ℕ)
    (t : List Ev)
    (hint : Interleave (writerTrace new.length) readerTrace t)
    (hm : mutexOK t) (hcap : new.length ≤ arr0.length) :
    (runSched new ⟨arr0, len0, none⟩ t).obs = some (arr0.take len0) ∨
    (runSched new ⟨arr0, len0, none⟩ t).obs = some new := by
  rcases mutex_serializes new.length t hint hm with rfl | rfl
  · right
    show (runSched new ⟨arr0, len0, none⟩
        (writerTrace new.length ++ readerTrace)).obs = _
    unfold runSched
    rw [List.foldl_append]
    show (runSched new (runSched new ⟨arr0, len0, none⟩
        (writerTrace new.length)) readerTrace).obs = _
    rw [runSched_writer new _ hcap, runSched_reader]
    simp [List.take_left]
  · left
    show (runSched new ⟨arr0, len0, none⟩
        (readerTrace ++ writerTrace new.length)).obs = _
    unfold runSched
    rw [List.foldl_append]
    show (runSched new (runSched new ⟨arr0, len0, none⟩
        readerTrace) (writerTrace new.length)).obs = _
    rw [runSched_reader, runSched_writer new _ hcap]

/-- Witness for `reader_sees_full_old_or_full_new`: the writer publishes a
2-element list into a 3-slot array holding one old station, with the writer
scheduled first. -/
theorem reader_sees_full_old_or_full_new_witness :
    (runSched [qOf 1 1, qOf 2 1] ⟨[qOf 9 1, qOf 0 1, qOf 0 1], 1, none⟩
        (writerTrace 2 ++ readerTrace)).obs =
      some ([qOf 9 1, qOf 0 1, qOf 0 1].take 1) ∨
    (runSched [qOf 1 1, qOf 2 1] ⟨[qOf 9 1, qOf 0 1, qOf 0 1], 1, none⟩
        (writerTrace 2 ++ readerTrace)).obs = some [qOf 1 1, qOf 2 1] :=
  reader_sees_full_old_or_full_new [qOf 1 1, qOf 2 1] [qOf 9 1, qOf 0 1, qOf 0 1]
    1 (writerTrace 2 ++ readerTrace)
    (interleave_append (writerTrace 2) readerTrace) (by decide) (by decide)

/-! ## The measurement window can take zero samples (claim C10) -/

/-- C10 counterexample: a legitimate monotone clock schedule in which the
first evaluation of the loop condition already sees `MEASURE_MS`
milliseconds elapsed (the thread was descheduled between reading `start`
and the first check): the measurement loop takes zero samples, so the
zero-sample skip branch of lines 86-92 is reachable — and indeed the code
guards it. -/
theorem measurement_window_can_take_zero_samples :
    Monotone (fun _ : ℕ => (200 : ℕ)) ∧
    (∃ h : ∃ k, ¬ windowOpen 0 (fun _ => 200) k,
      numSamples 0 (fun _ => 200) h = 0) ∧
    stationDetected [] = false := by
  refine ⟨monotone_const, ⟨⟨0, by decide⟩, ?_⟩, by decide⟩
  rw [numSamples, Nat.find_eq_zero]
  decide

/-- C10 amended: *if* the first evaluation of the elapsed-time check runs
strictly less than `MEASURE_MS` milliseconds after `start` was read, then
the loop takes at least one sample, so the mean's divisor is nonzero.
(The claim's "0 ms < 200 ms at entry" is exactly this extra scheduling
assumption; it is not guaranteed by the code.) -/
theorem at_least_one_sample_when_first_check_early (start : ℕ)
    (clock : ℕ → ℕ) (h0 : windowOpen start clock 0)
    (hex : ∃ k, ¬ windowOpen start clock k) :
    1 ≤ numSamples start clock hex ∧
    ∀ s : List ℚ, s.length = numSamples start clock hex → s ≠ [] := by
  have hpos : 0 < Nat.find hex := by
    rw [Nat.find_pos]
    exact not_not_intro h0
  refine ⟨hpos, ?_⟩
  intro s hs hnil
  rw [hnil] at hs
  rw [numSamples] at hs
  simp at hs
  omega

/-- Witness for `at_least_one_sample_when_first_check_early`: the identity
clock starting at `0`. -/
theorem at_least_one_sample_when_first_check_early_witness :
    ∃ hex : ∃ k, ¬ windowOpen 0 (fun k => k) k,
      1 ≤ numSamples 0 (fun k => k) hex :=
  ⟨⟨200, by decide⟩,
    (at_least_one_sample_when_first_check_early 0 (fun k => k) (by decide)
      ⟨200, by decide⟩).1⟩
